import Mathlib

/-!
Verification of the structural-reordering core of the pyphs repository.

The embedded code is:
  * `myrange` from `pyphs/misc/tools.py` (the permutation primitive), and
  * the move operations from `pyphs/core/structure/moves.py`
    (`movesquarematrixcolnrow`, `moveCoreMcolnrow`, `move_stor`,
    `move_diss`, `move_port`, `move_connector`).

The source is Python 2, so the embedding models Python list semantics
explicitly: integer indices may be negative, slices clamp their bounds
to the list, and plain indexing out of range raises `IndexError`.
Errors are modelled with `Option` (for `myrange`) and with
`Except Core Core` for the move operations, where `.error c` records the
state of the core at the moment the exception is raised, so that
"no mutation is observable on failure" is a statement about the carried
state.
-/

namespace PyPHS

/-- Python slice-bound normalisation: for a list of length `n`, the slice
endpoint `i` is clamped to `max (n + i) 0` when negative and to
`min i n` otherwise. -/
def sliceBound (n : Nat) (i : Int) : Nat :=
  if i < 0 then ((n : Int) + i).toNat else min i.toNat n

/-- Python slice `l[a:b]`: the elements at positions
`sliceBound a ≤ k < sliceBound b`. -/
def pySlice (l : List α) (a b : Int) : List α :=
  (l.take (sliceBound l.length b)).drop (sliceBound l.length a)

/-- Python element access `l[i]`: a negative `i` counts from the end;
an index outside `[-length, length)` raises `IndexError` (here `none`). -/
def pyGet (l : List α) (i : Int) : Option α :=
  if 0 ≤ i then l[i.toNat]?
  else if -(l.length : Int) ≤ i then l[((l.length : Int) + i).toNat]?
  else none

/-- Transcription of `myrange` from `pyphs/misc/tools.py`: return `range(N)` with index
`indi` at position `indf`.  Direct transcription of

    lis = range(N)
    if indi < indf:
        deb = lis[:indi] + lis[indi+1:indf+1]
        end = lis[indf+1:]
        eli = [lis[indi], ]
        lis = deb + eli + end
    elif indi > indf:
        deb = lis[:indf]
        end = lis[indf:indi] + lis[indi+1:]
        eli = [lis[indi], ]
        lis = deb + eli + end
    return lis

`lis[indi]` is the only operation that can raise. -/
def myrange (N : Nat) (indi indf : Int) : Option (List Nat) :=
  let lis := List.range N
  if indi < indf then
    (pyGet lis indi).map fun e =>
      (pySlice lis 0 indi ++ pySlice lis (indi + 1) (indf + 1)) ++ [e] ++
        pySlice lis (indf + 1) (N : Int)
  else if indf < indi then
    (pyGet lis indi).map fun e =>
      pySlice lis 0 indf ++ [e] ++
        (pySlice lis indf indi ++ pySlice lis (indi + 1) (N : Int))
  else
    some lis

/-- A square matrix as used by the core: a grid of entries together with
the structural-zero marker `is_zero` that the move operations consult
(`core.M.is_zero`, `core.Zl.is_zero`). -/
structure SqMatrix where
  is_zero : Bool
  data : List (List Int)
deriving DecidableEq, Repr

/-- Entry `data[a][b]` of a grid (total, with default `0`; the move
operations only ever read entries inside the grid). -/
def mget (data : List (List Int)) (a b : Nat) : Int :=
  (data.getD a []).getD b 0

/-- Transcription of `movesquarematrixcolnrow(M, indi, indf)` from
`pyphs/core/structure/moves.py`:

    n = M.shape[0]
    new_indices = myrange(n, indi, indf)
    return M[new_indices, new_indices]

Submatrix extraction on the index lists gives
`A[a, b] = M[new_indices[a], new_indices[b]]` (the docstring:
`A[j, :] == M[i, :]` and `A[:, j] == M[:, i]`). -/
def movesquarematrixcolnrow (M : SqMatrix) (indi indf : Int) : Option SqMatrix :=
  let n := M.data.length
  (myrange n indi indf).map fun new_indices =>
    ⟨M.is_zero, new_indices.map fun a => new_indices.map fun b => mget M.data a b⟩

/-- The core container: the four category vector pairs, the optional
gradient cache `dxH`, the structure matrix `M` and the dissipation side
matrix `Zl`.  Vector entries are opaque to the moves, modelled as `Int`. -/
structure Core where
  x : List Int
  dxH : Option (List Int)
  w : List Int
  z : List Int
  u : List Int
  y : List Int
  cu : List Int
  cy : List Int
  M : SqMatrix
  Zl : SqMatrix
deriving DecidableEq, Repr

/-- Modelled from the spec: the `core.dims.x()` accessor (the `Dims`
class is not part of the excerpt).  Per the spec, each category dimension
always equals the current length of that category's primary vector. -/
def Core.dimx (c : Core) : Nat := c.x.length

/-- Modelled from the spec: the `core.dims.w()` accessor. -/
def Core.dimw (c : Core) : Nat := c.w.length

/-- Modelled from the spec: the `core.dims.y()` accessor. -/
def Core.dimy (c : Core) : Nat := c.y.length

/-- Modelled from the spec: the `core.dims.cy()` accessor. -/
def Core.dimcy (c : Core) : Nat := c.cy.length

/-- Total dimension of the structure matrix:
`dim(x) + dim(w) + dim(y) + dim(cy)`. -/
def Core.N (c : Core) : Nat := c.dimx + c.dimw + c.dimy + c.dimcy

/-- The list comprehension `[v[el] for el in new_indices]` (indices
produced by `myrange` are always in range, so the default is never
read for well-formed calls). -/
def permuteVec (v : List Int) (perm : List Nat) : List Int :=
  perm.map fun k => v.getD k 0

/-- Transcription of `moveCoreMcolnrow(core, indi, indf)`:

    if not core.M.is_zero:
        core.M = movesquarematrixcolnrow(core.M, indi, indf)

An `IndexError` inside `movesquarematrixcolnrow` leaves the core as it
was (carried by `.error`). -/
def moveCoreMcolnrow (core : Core) (indi indf : Int) : Except Core Core :=
  if core.M.is_zero then .ok core
  else
    match movesquarematrixcolnrow core.M indi indf with
    | some A => .ok { core with M := A }
    | none => .error core

/-- Transcription of `move_stor(core, indi, indf)`: permute `x` (and `_dxH` when present)
by `myrange(dims.x(), indi, indf)`, then move the matrix rows/columns. -/
def move_stor (core : Core) (indi indf : Int) : Except Core Core :=
  match myrange core.dimx indi indf with
  | none => .error core
  | some new_indices =>
    let c1 := { core with
      x := permuteVec core.x new_indices,
      dxH := core.dxH.map fun d => permuteVec d new_indices }
    moveCoreMcolnrow c1 indi indf

/-- Transcription of `move_diss(core, indi, indf)`: permute `w` and `z` by
`myrange(dims.w(), indi, indf)`, move the matrix rows/columns at the
storage-shifted indices `dims.x() + indi`, `dims.x() + indf`, and, when
`Zl` is not structurally zero, permute `Zl` at the unshifted indices. -/
def move_diss (core : Core) (indi indf : Int) : Except Core Core :=
  match myrange core.dimw indi indf with
  | none => .error core
  | some new_indices =>
    let c1 := { core with
      w := permuteVec core.w new_indices,
      z := permuteVec core.z new_indices }
    match moveCoreMcolnrow c1 ((c1.dimx : Int) + indi) ((c1.dimx : Int) + indf) with
    | .error c2 => .error c2
    | .ok c2 =>
      if c2.Zl.is_zero then .ok c2
      else
        match movesquarematrixcolnrow c2.Zl indi indf with
        | some A => .ok { c2 with Zl := A }
        | none => .error c2

/-- Transcription of `move_port(core, indi, indf)`: permute `u` and `y` by
`myrange(dims.y(), indi, indf)` and move the matrix rows/columns at
offset `dims.x() + dims.w()`. -/
def move_port (core : Core) (indi indf : Int) : Except Core Core :=
  match myrange core.dimy indi indf with
  | none => .error core
  | some new_indices =>
    let c1 := { core with
      u := permuteVec core.u new_indices,
      y := permuteVec core.y new_indices }
    moveCoreMcolnrow c1 ((c1.dimx : Int) + (c1.dimw : Int) + indi)
      ((c1.dimx : Int) + (c1.dimw : Int) + indf)

/-- Transcription of `move_connector(core, indi, indf)`: permute `cu` and `cy` by
`myrange(dims.cy(), indi, indf)` and move the matrix rows/columns at
offset `dims.x() + dims.w() + dims.y()`. -/
def move_connector (core : Core) (indi indf : Int) : Except Core Core :=
  match myrange core.dimcy indi indf with
  | none => .error core
  | some new_indices =>
    let c1 := { core with
      cu := permuteVec core.cu new_indices,
      cy := permuteVec core.cy new_indices }
    moveCoreMcolnrow c1 ((c1.dimx : Int) + (c1.dimw : Int) + (c1.dimy : Int) + indi)
      ((c1.dimx : Int) + (c1.dimw : Int) + (c1.dimy : Int) + indf)

/-- The state held by a move's result: the final core on success, the
core at the moment of the raise on failure. -/
def stateOf : Except Core Core → Core
  | .ok c => c
  | .error c => c

/-- Whether a move succeeded (no exception was raised). -/
def isOkE : Except Core Core → Bool
  | .ok _ => true
  | .error _ => false

/-- Well-formedness of a core, as the spec's data model states it: paired
vectors have equal lengths, the cached gradient (when present) matches
`x`, `M` is square of the total dimension and `Zl` is square of the
dissipation dimension. -/
def Core.wf (c : Core) : Prop :=
  (∀ d ∈ c.dxH.toList, d.length = c.x.length) ∧
  c.z.length = c.w.length ∧
  c.u.length = c.y.length ∧
  c.cu.length = c.cy.length ∧
  c.M.data.length = c.N ∧
  (∀ row ∈ c.M.data, row.length = c.N) ∧
  c.Zl.data.length = c.dimw ∧
  (∀ row ∈ c.Zl.data, row.length = c.dimw)

instance (c : Core) : Decidable c.wf := by
  unfold Core.wf; infer_instance

/-- The spec's position-by-position description of the move permutation:
positions outside `[min i j, max i j]` keep their element, position `j`
receives element `i`, and the window in between shifts by one slot
(left when `i < j`, right when `i > j`). -/
def movePermSpec (i j k : Nat) : Nat :=
  if k < min i j then k
  else if max i j < k then k
  else if k = j then i
  else if i < j then k + 1
  else k - 1

/-- The permutation list the spec describes: `movePermSpec` tabulated on
`0..n-1`. -/
def movePermList (n i j : Nat) : List Nat :=
  (List.range n).map (movePermSpec i j)

/-- Symmetric application of an index list to a grid:
entry `(a, b)` of the result is entry `(p[a], p[b])` of `data`. -/
def permMat (data : List (List Int)) (p : List Nat) : List (List Int) :=
  p.map fun a => p.map fun b => mget data a b

/-- A nonnegative slice endpoint is clamped to the list length. -/
lemma sliceBound_coe (n k : Nat) : sliceBound n (k : Int) = min k n := by
  simp [sliceBound]

lemma sliceBound_le (n : Nat) (i : Int) : sliceBound n i ≤ n := by
  unfold sliceBound
  split <;> omega

lemma drop_range (n m : Nat) : (List.range n).drop m = List.range' m (n - m) := by
  by_cases h : m ≤ n
  · have hsplit : List.range' 0 m ++ List.range' m (n - m) = List.range n := by
      have h2 := List.range'_append 0 m (n - m) 1
      simp only [Nat.one_mul, Nat.zero_add] at h2
      rw [Nat.sub_add_cancel h] at h2
      rw [List.range_eq_range', h2]
    rw [← hsplit, List.drop_left' (by simp)]
  · rw [List.drop_eq_nil_of_le (by simp; omega)]
    have hz : n - m = 0 := by omega
    simp [hz]

lemma pySlice_range (n : Nat) (a b : Int) :
    pySlice (List.range n) a b =
      List.range' (sliceBound n a) (sliceBound n b - sliceBound n a) := by
  unfold pySlice
  rw [List.length_range, List.take_range, drop_range]
  have hb := sliceBound_le n b
  have hmin : min (sliceBound n b) n = sliceBound n b := by omega
  rw [hmin]

lemma pyGet_range (n k : Nat) (h : k < n) :
    pyGet (List.range n) (k : Int) = some k := by
  simp [pyGet, List.getElem?_range h]

lemma pyGet_range_none (n : Nat) (i : Int) (h : (n : Int) ≤ i ∨ i < -(n : Int)) :
    pyGet (List.range n) i = none := by
  unfold pyGet
  rcases h with h | h
  · rw [if_pos (by omega)]
    rw [List.getElem?_eq_none]
    simp
    omega
  · rw [if_neg (by omega), if_neg (by simp; omega)]

lemma range'_split (s a b : Nat) :
    List.range' s (a + b) = List.range' s a ++ List.range' (s + a) b := by
  have h := List.range'_append s a b 1
  simp only [Nat.one_mul] at h
  rw [Nat.add_comm a b, ← h]

lemma map_spec_id_lo (i j s m : Nat) (h : s + m ≤ min i j) :
    (List.range' s m).map (movePermSpec i j) = List.range' s m := by
  have hpt : ∀ k ∈ List.range' s m, movePermSpec i j k = (fun k => k) k := by
    intro k hk
    rw [List.mem_range'] at hk
    obtain ⟨t, ht, hkt⟩ := hk
    subst hkt
    simp only [movePermSpec]
    split_ifs <;> omega
  rw [List.map_congr_left hpt, List.map_id']

lemma map_spec_id_hi (i j s m : Nat) (h : max i j < s) :
    (List.range' s m).map (movePermSpec i j) = List.range' s m := by
  have hpt : ∀ k ∈ List.range' s m, movePermSpec i j k = (fun k => k) k := by
    intro k hk
    rw [List.mem_range'] at hk
    obtain ⟨t, ht, hkt⟩ := hk
    subst hkt
    simp only [movePermSpec]
    split_ifs <;> omega
  rw [List.map_congr_left hpt, List.map_id']

lemma map_spec_shift_up (i j : Nat) (hij : i < j) :
    (List.range' i (j - i)).map (movePermSpec i j) = List.range' (i + 1) (j - i) := by
  have hpt : ∀ k ∈ List.range' i (j - i), movePermSpec i j k = (fun k => 1 + k) k := by
    intro k hk
    rw [List.mem_range'] at hk
    obtain ⟨t, ht, hkt⟩ := hk
    subst hkt
    simp only [movePermSpec]
    split_ifs <;> omega
  rw [List.map_congr_left hpt, List.map_add_range', Nat.add_comm 1 i]

lemma map_spec_shift_down (i j : Nat) (hij : j < i) :
    (List.range' (j + 1) (i - j)).map (movePermSpec i j) = List.range' j (i - j) := by
  have h2 : List.range' (j + 1) (i - j) =
      (List.range' j (i - j)).map (fun k => 1 + k) := by
    rw [List.map_add_range', Nat.add_comm 1 j]
  rw [h2, List.map_map]
  have hpt : ∀ k ∈ List.range' j (i - j),
      (movePermSpec i j ∘ fun k => 1 + k) k = (fun k => k) k := by
    intro k hk
    rw [List.mem_range'] at hk
    obtain ⟨t, ht, hkt⟩ := hk
    subst hkt
    simp only [Function.comp_apply, movePermSpec]
    split_ifs <;> omega
  rw [List.map_congr_left hpt, List.map_id']

lemma movePermSpec_self (i j : Nat) : movePermSpec i j j = i := by
  simp only [movePermSpec]
  split_ifs <;> omega

lemma movePermList_explicit_lt (n i j : Nat) (hij : i < j) (hj : j < n) :
    movePermList n i j =
      List.range' 0 i ++ List.range' (i + 1) (j - i) ++ [i] ++
        List.range' (j + 1) (n - (j + 1)) := by
  rw [movePermList, List.range_eq_range']
  have hs1 : n = i + ((j - i) + (1 + (n - (j + 1)))) := by omega
  conv_lhs => rw [hs1]
  rw [range'_split, range'_split, range'_split]
  simp only [Nat.zero_add]
  have e1 : i + (j - i) = j := by omega
  rw [e1]
  rw [List.map_append, List.map_append, List.map_append]
  rw [map_spec_id_lo i j 0 i (by omega)]
  rw [map_spec_shift_up i j hij]
  rw [List.range'_one]
  rw [map_spec_id_hi i j (j + 1) _ (by omega)]
  simp only [List.map_cons, List.map_nil, movePermSpec_self]
  simp [List.append_assoc]

lemma movePermList_explicit_gt (n i j : Nat) (hij : j < i) (hi : i < n) :
    movePermList n i j =
      List.range' 0 j ++ [i] ++ (List.range' j (i - j) ++
        List.range' (i + 1) (n - (i + 1))) := by
  rw [movePermList, List.range_eq_range']
  have hs1 : n = j + (1 + ((i - j) + (n - (i + 1)))) := by omega
  conv_lhs => rw [hs1]
  rw [range'_split, range'_split, range'_split]
  simp only [Nat.zero_add]
  have e1 : j + 1 + (i - j) = i + 1 := by omega
  rw [e1]
  rw [List.map_append, List.map_append, List.map_append]
  rw [map_spec_id_lo i j 0 j (by omega)]
  rw [List.range'_one]
  rw [map_spec_shift_down i j hij]
  rw [map_spec_id_hi i j (i + 1) _ (by omega)]
  simp only [List.map_cons, List.map_nil, movePermSpec_self]
  simp [List.append_assoc]

lemma movePermList_self (n i : Nat) : movePermList n i i = List.range n := by
  rw [movePermList]
  have hpt : ∀ k ∈ List.range n, movePermSpec i i k = (fun k => k) k := by
    intro k _
    simp only [movePermSpec]
    split_ifs <;> omega
  rw [List.map_congr_left hpt, List.map_id']

lemma myrange_eq (n i j : Nat) (hi : i < n) (hj : j < n) :
    myrange n (i : Int) (j : Int) = some (movePermList n i j) := by
  rcases Nat.lt_trichotomy i j with hij | hij | hij
  · rw [movePermList_explicit_lt n i j hij hj]
    unfold myrange
    rw [if_pos (by exact_mod_cast hij)]
    rw [pyGet_range n i hi]
    have c1 : (i : Int) + 1 = ((i + 1 : Nat) : Int) := by push_cast; ring
    have c2 : (j : Int) + 1 = ((j + 1 : Nat) : Int) := by push_cast; ring
    have c0 : (0 : Int) = ((0 : Nat) : Int) := by norm_num
    rw [c1, c2, c0, pySlice_range, pySlice_range, pySlice_range]
    simp only [sliceBound_coe]
    have e0 : min 0 n = 0 := by omega
    have e1 : min i n = i := by omega
    have e2 : min (i + 1) n = i + 1 := by omega
    have e3 : min (j + 1) n = j + 1 := by omega
    have e4 : min n n = n := by omega
    rw [e0, e1, e2, e3, e4]
    simp only [Option.map_some']
    congr 1
    have f1 : i - 0 = i := by omega
    have f2 : j + 1 - (i + 1) = j - i := by omega
    rw [f1, f2]
  · subst hij
    unfold myrange
    rw [if_neg (by omega), if_neg (by omega)]
    rw [movePermList_self]
  · rw [movePermList_explicit_gt n i j hij hi]
    unfold myrange
    rw [if_neg (by exact_mod_cast Nat.not_lt.mpr (Nat.le_of_lt hij))]
    rw [if_pos (by exact_mod_cast hij)]
    rw [pyGet_range n i hi]
    have c1 : (i : Int) + 1 = ((i + 1 : Nat) : Int) := by push_cast; ring
    have c0 : (0 : Int) = ((0 : Nat) : Int) := by norm_num
    rw [c1, c0, pySlice_range, pySlice_range, pySlice_range]
    simp only [sliceBound_coe]
    have e0 : min 0 n = 0 := by omega
    have e1 : min j n = j := by omega
    have e2 : min i n = i := by omega
    have e3 : min (i + 1) n = i + 1 := by omega
    have e4 : min n n = n := by omega
    rw [e0, e1, e2, e3, e4]
    simp only [Option.map_some']
    congr 1

lemma myrange_same (n : Nat) (i : Int) : myrange n i i = some (List.range n) := by
  unfold myrange
  rw [if_neg (by omega), if_neg (by omega)]

lemma myrange_none (n : Nat) (i j : Int) (h : (n : Int) ≤ i ∨ i < -(n : Int))
    (hij : i ≠ j) : myrange n i j = none := by
  unfold myrange
  rcases lt_trichotomy i j with hlt | heq | hgt
  · rw [if_pos hlt, pyGet_range_none n i h]
    rfl
  · exact absurd heq hij
  · rw [if_neg (by omega), if_pos hgt, pyGet_range_none n i h]
    rfl

lemma movePermSpec_lt (n i j k : Nat) (hi : i < n) (hj : j < n) (hk : k < n) :
    movePermSpec i j k < n := by
  simp only [movePermSpec]
  split_ifs <;> omega

lemma movePermSpec_out (i j k : Nat) (h : k < min i j ∨ max i j < k) :
    movePermSpec i j k = k := by
  simp only [movePermSpec]
  split_ifs <;> omega

lemma movePermSpec_comp (i j k : Nat) :
    movePermSpec i j (movePermSpec j i k) = k := by
  simp only [movePermSpec]
  split_ifs <;> omega

lemma movePermList_length (n i j : Nat) : (movePermList n i j).length = n := by
  simp [movePermList]

lemma movePermList_getD (n i j k : Nat) (h : k < n) :
    (movePermList n i j).getD k 0 = movePermSpec i j k := by
  have hl : k < (movePermList n i j).length := by
    rw [movePermList_length]
    exact h
  rw [List.getD_eq_getElem _ _ hl]
  simp only [movePermList, List.getElem_map, List.getElem_range]

lemma permuteVec_length (v : List Int) (p : List Nat) :
    (permuteVec v p).length = p.length := by
  simp [permuteVec]

lemma permuteVec_getD (v : List Int) (p : List Nat) (k : Nat) (h : k < p.length) :
    (permuteVec v p).getD k 0 = v.getD (p.getD k 0) 0 := by
  have hl : k < (permuteVec v p).length := by
    rw [permuteVec_length]
    exact h
  rw [List.getD_eq_getElem _ _ hl, List.getD_eq_getElem p 0 h]
  simp only [permuteVec, List.getElem_map]

lemma permuteVec_roundtrip (v : List Int) (n i j : Nat) (hv : v.length = n)
    (hi : i < n) (hj : j < n) :
    permuteVec (permuteVec v (movePermList n i j)) (movePermList n j i) = v := by
  apply List.ext_getElem
  · rw [permuteVec_length, movePermList_length, hv]
  · intro k h1 h2
    have hk : k < n := by rwa [permuteVec_length, movePermList_length] at h1
    rw [← List.getD_eq_getElem _ 0 h1, ← List.getD_eq_getElem v 0 h2]
    rw [permuteVec_getD _ _ k (by rw [movePermList_length]; exact hk)]
    rw [movePermList_getD n j i k hk]
    have hs : movePermSpec j i k < n := movePermSpec_lt n j i k hj hi hk
    rw [permuteVec_getD _ _ _ (by rw [movePermList_length]; exact hs)]
    rw [movePermList_getD n i j _ hs, movePermSpec_comp]

lemma permuteVec_range (v : List Int) : permuteVec v (List.range v.length) = v := by
  apply List.ext_getElem
  · simp [permuteVec]
  · intro k h1 h2
    simp only [permuteVec, List.getElem_map, List.getElem_range]
    exact List.getD_eq_getElem v 0 h2

lemma permMat_length (data : List (List Int)) (p : List Nat) :
    (permMat data p).length = p.length := by
  simp [permMat]

lemma permMat_row_length (data : List (List Int)) (p : List Nat) :
    ∀ row ∈ permMat data p, row.length = p.length := by
  intro row hrow
  simp only [permMat, List.mem_map] at hrow
  obtain ⟨a, _, rfl⟩ := hrow
  simp

lemma mget_default_row (data : List (List Int)) (a b : Nat)
    (ha : data.length ≤ a) : mget data a b = 0 := by
  unfold mget
  rw [List.getD_eq_default _ _ ha]
  rfl

lemma mget_default_col (data : List (List Int)) (n a b : Nat)
    (hrow : ∀ row ∈ data, row.length = n) (hb : n ≤ b) : mget data a b = 0 := by
  unfold mget
  rcases Nat.lt_or_ge a data.length with ha | ha
  · rw [List.getD_eq_getElem _ _ ha]
    apply List.getD_eq_default
    rw [hrow data[a] (List.getElem_mem ha)]
    exact hb
  · rw [List.getD_eq_default _ _ ha]
    rfl

lemma mget_permMat (data : List (List Int)) (p : List Nat) (a b : Nat)
    (ha : a < p.length) (hb : b < p.length) :
    mget (permMat data p) a b = mget data (p.getD a 0) (p.getD b 0) := by
  have hla : a < (permMat data p).length := by
    rw [permMat_length]
    exact ha
  have hrow : (permMat data p).getD a [] = p.map fun c => mget data (p.getD a 0) c := by
    rw [List.getD_eq_getElem _ _ hla]
    simp only [permMat, List.getElem_map]
    rw [List.getD_eq_getElem p 0 ha]
  show ((permMat data p).getD a []).getD b 0 = mget data (p.getD a 0) (p.getD b 0)
  rw [hrow]
  have hlb : b < (p.map fun c => mget data (p.getD a 0) c).length := by
    rw [List.length_map]
    exact hb
  rw [List.getD_eq_getElem _ _ hlb]
  simp only [List.getElem_map]
  rw [List.getD_eq_getElem p 0 hb]

lemma mget_permMat_spec (data : List (List Int)) (n i j a b : Nat)
    (hlen : data.length = n) (hrow : ∀ row ∈ data, row.length = n)
    (hi : i < n) (hj : j < n) :
    mget (permMat data (movePermList n i j)) a b
      = mget data (movePermSpec i j a) (movePermSpec i j b) := by
  by_cases ha : a < n
  · by_cases hb : b < n
    · rw [mget_permMat _ _ _ _ (by rw [movePermList_length]; exact ha)
        (by rw [movePermList_length]; exact hb),
        movePermList_getD n i j a ha, movePermList_getD n i j b hb]
    · have hfb : movePermSpec i j b = b := movePermSpec_out i j b (by omega)
      rw [hfb]
      rw [mget_default_col _ n a b
        (by
          intro row hr
          have := permMat_row_length data (movePermList n i j) row hr
          rwa [movePermList_length] at this)
        (by omega)]
      rw [mget_default_col data n _ b hrow (by omega)]
  · have hfa : movePermSpec i j a = a := movePermSpec_out i j a (by omega)
    rw [hfa]
    rw [mget_default_row _ a b (by rw [permMat_length, movePermList_length]; omega)]
    rw [mget_default_row data a _ (by omega)]

lemma permMat_roundtrip (data : List (List Int)) (n i j : Nat)
    (hlen : data.length = n) (hrow : ∀ row ∈ data, row.length = n)
    (hi : i < n) (hj : j < n) :
    permMat (permMat data (movePermList n i j)) (movePermList n j i) = data := by
  have hlen1 : (permMat data (movePermList n i j)).length = n := by
    rw [permMat_length, movePermList_length]
  have hrow1 : ∀ row ∈ permMat data (movePermList n i j), row.length = n := by
    intro row hr
    have := permMat_row_length data (movePermList n i j) row hr
    rwa [movePermList_length] at this
  apply List.ext_getElem
  · rw [permMat_length, movePermList_length, hlen]
  · intro a h1 h2
    have ha : a < n := by rwa [permMat_length, movePermList_length] at h1
    apply List.ext_getElem
    · have r1 := permMat_row_length (permMat data (movePermList n i j))
        (movePermList n j i) _ (List.getElem_mem h1)
      rw [movePermList_length] at r1
      have r2 := hrow _ (List.getElem_mem h2)
      rw [r1, r2]
    · intro b g1 g2
      have hb : b < n := by
        have r1 := permMat_row_length (permMat data (movePermList n i j))
          (movePermList n j i) _ (List.getElem_mem h1)
        rw [movePermList_length] at r1
        rwa [r1] at g1
      have e1 : (permMat (permMat data (movePermList n i j)) (movePermList n j i))[a][b]
          = mget (permMat (permMat data (movePermList n i j)) (movePermList n j i)) a b := by
        unfold mget
        rw [List.getD_eq_getElem _ _ h1, List.getD_eq_getElem _ _ g1]
      have e2 : data[a][b] = mget data a b := by
        unfold mget
        rw [List.getD_eq_getElem _ _ h2, List.getD_eq_getElem _ _ g2]
      rw [e1, e2]
      rw [mget_permMat_spec _ n j i a b hlen1 hrow1 hj hi]
      rw [mget_permMat_spec data n i j _ _ hlen hrow hi hj]
      rw [movePermSpec_comp, movePermSpec_comp]

lemma permMat_range (data : List (List Int)) (n : Nat) (hlen : data.length = n)
    (hrow : ∀ row ∈ data, row.length = n) : permMat data (List.range n) = data := by
  apply List.ext_getElem
  · rw [permMat_length, List.length_range, hlen]
  · intro a h1 h2
    have ha : a < n := by rwa [permMat_length, List.length_range] at h1
    simp only [permMat, List.getElem_map, List.getElem_range]
    apply List.ext_getElem
    · rw [List.length_map, List.length_range, hrow _ (List.getElem_mem h2)]
    · intro b g1 g2
      simp only [List.getElem_map, List.getElem_range]
      unfold mget
      rw [List.getD_eq_getElem _ _ h2, List.getD_eq_getElem _ _ g2]

lemma dimx_le_N (c : Core) : c.dimx ≤ c.N := by
  unfold Core.N
  omega

lemma dimxw_le_N (c : Core) : c.dimx + c.dimw ≤ c.N := by
  unfold Core.N
  omega

lemma dimxwy_le_N (c : Core) : c.dimx + c.dimw + c.dimy ≤ c.N := by
  unfold Core.N
  omega

lemma dimcy_le_N (c : Core) : c.dimx + c.dimw + c.dimy + c.dimcy ≤ c.N := by
  unfold Core.N
  omega

lemma movesquare_eq (M : SqMatrix) (n i j : Nat) (hn : M.data.length = n)
    (hi : i < n) (hj : j < n) :
    movesquarematrixcolnrow M (i : Int) (j : Int)
      = some ⟨M.is_zero, permMat M.data (movePermList n i j)⟩ := by
  simp only [movesquarematrixcolnrow]
  rw [hn, myrange_eq n i j hi hj]
  rfl

lemma move_stor_eq (c : Core) (i j : Nat) (hi : i < c.dimx) (hj : j < c.dimx)
    (hM : c.M.data.length = c.N) :
    move_stor c (i : Int) (j : Int) = .ok { c with
      x := permuteVec c.x (movePermList c.dimx i j),
      dxH := c.dxH.map fun d => permuteVec d (movePermList c.dimx i j),
      M := if c.M.is_zero then c.M
        else ⟨c.M.is_zero, permMat c.M.data (movePermList c.N i j)⟩ } := by
  have hiN : i < c.N := by
    have := dimx_le_N c
    omega
  have hjN : j < c.N := by
    have := dimx_le_N c
    omega
  unfold move_stor
  rw [myrange_eq c.dimx i j hi hj]
  unfold moveCoreMcolnrow
  by_cases hz : c.M.is_zero
  · simp [hz]
  · simp only [Bool.not_eq_true] at hz
    simp only [hz, Bool.false_eq_true, if_false]
    rw [movesquare_eq c.M c.N i j hM hiN hjN, hz]

lemma move_port_eq (c : Core) (i j : Nat) (hi : i < c.dimy) (hj : j < c.dimy)
    (hM : c.M.data.length = c.N) :
    move_port c (i : Int) (j : Int) = .ok { c with
      u := permuteVec c.u (movePermList c.dimy i j),
      y := permuteVec c.y (movePermList c.dimy i j),
      M := if c.M.is_zero then c.M
        else ⟨c.M.is_zero, permMat c.M.data
          (movePermList c.N (c.dimx + c.dimw + i) (c.dimx + c.dimw + j))⟩ } := by
  have hle := dimxwy_le_N c
  have hiN : c.dimx + c.dimw + i < c.N := by omega
  have hjN : c.dimx + c.dimw + j < c.N := by omega
  unfold move_port
  rw [myrange_eq c.dimy i j hi hj]
  unfold moveCoreMcolnrow
  have hci : ((c.dimx : Int) + (c.dimw : Int) + (i : Int))
      = ((c.dimx + c.dimw + i : Nat) : Int) := by
    push_cast
    ring
  have hcj : ((c.dimx : Int) + (c.dimw : Int) + (j : Int))
      = ((c.dimx + c.dimw + j : Nat) : Int) := by
    push_cast
    ring
  by_cases hz : c.M.is_zero
  · simp [hz]
  · simp only [Bool.not_eq_true] at hz
    simp only [hz, Bool.false_eq_true, if_false]
    simp only [Core.dimx, Core.dimw] at hci hcj ⊢
    rw [hci, hcj]
    rw [movesquare_eq c.M c.N (c.x.length + c.w.length + i)
      (c.x.length + c.w.length + j) hM hiN hjN, hz]

lemma move_connector_eq (c : Core) (i j : Nat) (hi : i < c.dimcy) (hj : j < c.dimcy)
    (hM : c.M.data.length = c.N) :
    move_connector c (i : Int) (j : Int) = .ok { c with
      cu := permuteVec c.cu (movePermList c.dimcy i j),
      cy := permuteVec c.cy (movePermList c.dimcy i j),
      M := if c.M.is_zero then c.M
        else ⟨c.M.is_zero, permMat c.M.data
          (movePermList c.N (c.dimx + c.dimw + c.dimy + i)
            (c.dimx + c.dimw + c.dimy + j))⟩ } := by
  have hle := dimcy_le_N c
  have hiN : c.dimx + c.dimw + c.dimy + i < c.N := by omega
  have hjN : c.dimx + c.dimw + c.dimy + j < c.N := by omega
  unfold move_connector
  rw [myrange_eq c.dimcy i j hi hj]
  unfold moveCoreMcolnrow
  have hci : ((c.dimx : Int) + (c.dimw : Int) + (c.dimy : Int) + (i : Int))
      = ((c.dimx + c.dimw + c.dimy + i : Nat) : Int) := by
    push_cast
    ring
  have hcj : ((c.dimx : Int) + (c.dimw : Int) + (c.dimy : Int) + (j : Int))
      = ((c.dimx + c.dimw + c.dimy + j : Nat) : Int) := by
    push_cast
    ring
  by_cases hz : c.M.is_zero
  · simp [hz]
  · simp only [Bool.not_eq_true] at hz
    simp only [hz, Bool.false_eq_true, if_false]
    simp only [Core.dimx, Core.dimw, Core.dimy] at hci hcj ⊢
    rw [hci, hcj]
    rw [movesquare_eq c.M c.N (c.x.length + c.w.length + c.y.length + i)
      (c.x.length + c.w.length + c.y.length + j) hM hiN hjN, hz]

lemma move_diss_eq (c : Core) (i j : Nat) (hi : i < c.dimw) (hj : j < c.dimw)
    (hM : c.M.data.length = c.N) (hZl : c.Zl.data.length = c.dimw) :
    move_diss c (i : Int) (j : Int) = .ok { c with
      w := permuteVec c.w (movePermList c.dimw i j),
      z := permuteVec c.z (movePermList c.dimw i j),
      M := if c.M.is_zero then c.M
        else ⟨c.M.is_zero, permMat c.M.data
          (movePermList c.N (c.dimx + i) (c.dimx + j))⟩,
      Zl := if c.Zl.is_zero then c.Zl
        else ⟨c.Zl.is_zero, permMat c.Zl.data (movePermList c.dimw i j)⟩ } := by
  have hle := dimxw_le_N c
  have hiN : c.dimx + i < c.N := by omega
  have hjN : c.dimx + j < c.N := by omega
  unfold move_diss
  rw [myrange_eq c.dimw i j hi hj]
  unfold moveCoreMcolnrow
  have hci : ((c.dimx : Int) + (i : Int)) = ((c.dimx + i : Nat) : Int) := by
    push_cast
    ring
  have hcj : ((c.dimx : Int) + (j : Int)) = ((c.dimx + j : Nat) : Int) := by
    push_cast
    ring
  by_cases hz : c.M.is_zero
  · simp only [hz, if_true]
    by_cases hzl : c.Zl.is_zero
    · simp [hzl, hz]
    · simp only [Bool.not_eq_true] at hzl
      simp only [hzl, hz, Bool.false_eq_true, if_false, if_true]
      rw [movesquare_eq c.Zl c.dimw i j hZl hi hj, hzl]
  · simp only [Bool.not_eq_true] at hz
    simp only [hz, Bool.false_eq_true, if_false]
    simp only [Core.dimx] at hci hcj ⊢
    rw [hci, hcj]
    rw [movesquare_eq c.M c.N (c.x.length + i) (c.x.length + j) hM hiN hjN]
    by_cases hzl : c.Zl.is_zero
    · simp [hzl, hz]
    · simp only [Bool.not_eq_true] at hzl
      simp only [hzl, hz, Bool.false_eq_true, if_false]
      rw [movesquare_eq c.Zl c.dimw i j hZl hi hj, hzl]

lemma movePermList_perm (n i j : Nat) (hi : i < n) (hj : j < n) :
    (movePermList n i j).Perm (List.range n) := by
  rcases Nat.lt_trichotomy i j with hij | hij | hij
  · rw [movePermList_explicit_lt n i j hij hj]
    have hs : n = i + (1 + ((j - i) + (n - (j + 1)))) := by omega
    rw [List.range_eq_range']
    conv_rhs => rw [hs]
    rw [range'_split, range'_split, range'_split]
    simp only [Nat.zero_add, List.range'_one]
    have e1 : i + 1 + (j - i) = j + 1 := by omega
    rw [e1]
    have key : List.range' 0 i ++ List.range' (i + 1) (j - i) ++ [i] ++
        List.range' (j + 1) (n - (j + 1))
        = List.range' 0 i ++ (List.range' (i + 1) (j - i) ++
          i :: List.range' (j + 1) (n - (j + 1))) := by
      simp
    rw [key]
    simp only [List.singleton_append, List.nil_append]
    exact List.Perm.append_left _ List.perm_middle
  · subst hij
    rw [movePermList_self]
  · rw [movePermList_explicit_gt n i j hij hi]
    have hs : n = j + ((i - j) + (1 + (n - (i + 1)))) := by omega
    rw [List.range_eq_range']
    conv_rhs => rw [hs]
    rw [range'_split, range'_split, range'_split]
    simp only [Nat.zero_add, List.range'_one]
    have e1 : j + (i - j) = i := by omega
    rw [e1]
    have key : List.range' 0 j ++ [i] ++ (List.range' j (i - j) ++
        List.range' (i + 1) (n - (i + 1)))
        = List.range' 0 j ++ (i :: (List.range' j (i - j) ++
          List.range' (i + 1) (n - (i + 1)))) := by
      simp
    rw [key]
    simp only [List.singleton_append, List.nil_append]
    exact List.Perm.append_left _ List.perm_middle.symm

/-- C1: for every `n ≥ 1` and `0 ≤ i, j < n`, `myrange(n, i, j)` returns
the sequence obtained from the identity order `0..n-1` by removing
element `i` and reinserting it at position `j`:  position by position it
is `movePermSpec i j`, which is the identity when `i = j`, shifts the
window `i+1..j` left by one with the moved element last when `i < j`,
shifts the window `j..i-1` right by one with the moved element first when
`i > j`, and fixes every position outside `[min i j, max i j]`. -/
theorem myrange_moves_index (n i j : Nat) (hn : 1 ≤ n) (hi : i < n) (hj : j < n) :
    myrange n (i : Int) (j : Int) = some ((List.range n).map (movePermSpec i j)) :=
  myrange_eq n i j hi hj

/-- Witness for C1 at `n = 4`, `i = 1`, `j = 3`. -/
theorem myrange_moves_index_witness :
    1 ≤ 4 ∧ 1 < 4 ∧ 3 < 4 ∧
      myrange 4 ((1 : Nat) : Int) ((3 : Nat) : Int)
        = some ((List.range 4).map (movePermSpec 1 3)) :=
  ⟨by decide, by decide, by decide,
    myrange_moves_index 4 1 3 (by decide) (by decide) (by decide)⟩

/-- C3: for every `n ≥ 1` and `0 ≤ i, j < n`, `myrange(n, i, j)` is a
bijection on `0..n-1`: a sequence of length `n` in which every value in
`0..n-1` occurs exactly once. -/
theorem myrange_is_permutation (n i j : Nat) (hn : 1 ≤ n) (hi : i < n) (hj : j < n) :
    ∃ l, myrange n (i : Int) (j : Int) = some l ∧ l.length = n ∧
      ∀ v, v < n → l.count v = 1 := by
  refine ⟨movePermList n i j, myrange_eq n i j hi hj, movePermList_length n i j, ?_⟩
  intro v hv
  have hperm := movePermList_perm n i j hi hj
  rw [hperm.count_eq]
  exact List.count_eq_one_of_mem (List.nodup_range n) (List.mem_range.mpr hv)

/-- Witness for C3 at `n = 5`, `i = 3`, `j = 1`. -/
theorem myrange_is_permutation_witness :
    1 ≤ 5 ∧ 3 < 5 ∧ 1 < 5 ∧
      ∃ l, myrange 5 ((3 : Nat) : Int) ((1 : Nat) : Int) = some l ∧ l.length = 5 ∧
        ∀ v, v < 5 → l.count v = 1 :=
  ⟨by decide, by decide, by decide,
    myrange_is_permutation 5 3 1 (by decide) (by decide) (by decide)⟩

/-- C2: for every square `n × n` matrix `M` and `0 ≤ i, j < n`,
`movesquarematrixcolnrow(M, i, j)` returns a matrix `A` of the same
`n × n` shape with `A[a, b] = M[perm[a], perm[b]]` for all
`a, b ∈ 0..n-1`, where `perm = myrange(n, i, j)`: rows and columns are
reindexed by the identical index mapping, and the zero marker is kept. -/
theorem movesquarematrixcolnrow_spec (M : SqMatrix) (n i j : Nat)
    (hn : M.data.length = n) (hsq : ∀ row ∈ M.data, row.length = n)
    (hi : i < n) (hj : j < n) :
    ∃ perm A, myrange n (i : Int) (j : Int) = some perm ∧
      movesquarematrixcolnrow M (i : Int) (j : Int) = some A ∧
      A.is_zero = M.is_zero ∧
      A.data.length = n ∧ (∀ row ∈ A.data, row.length = n) ∧
      ∀ a b : Nat, a < n → b < n →
        mget A.data a b = mget M.data (perm.getD a 0) (perm.getD b 0) := by
  refine ⟨movePermList n i j, ⟨M.is_zero, permMat M.data (movePermList n i j)⟩,
    myrange_eq n i j hi hj, movesquare_eq M n i j hn hi hj, rfl, ?_, ?_, ?_⟩
  · rw [permMat_length, movePermList_length]
  · intro row hr
    have hr2 := permMat_row_length M.data (movePermList n i j) row hr
    rwa [movePermList_length] at hr2
  · intro a b ha hb
    exact mget_permMat M.data (movePermList n i j) a b
      (by rw [movePermList_length]; exact ha)
      (by rw [movePermList_length]; exact hb)

/-- Witness for C2 on a concrete `3 × 3` matrix with `i = 0`, `j = 2`. -/
theorem movesquarematrixcolnrow_spec_witness :
    (⟨false, [[1, 2, 3], [4, 5, 6], [7, 8, 9]]⟩ : SqMatrix).data.length = 3 ∧
      (∀ row ∈ (⟨false, [[1, 2, 3], [4, 5, 6], [7, 8, 9]]⟩ : SqMatrix).data,
        row.length = 3) ∧ 0 < 3 ∧ 2 < 3 ∧
      ∃ perm A, myrange 3 ((0 : Nat) : Int) ((2 : Nat) : Int) = some perm ∧
        movesquarematrixcolnrow (⟨false, [[1, 2, 3], [4, 5, 6], [7, 8, 9]]⟩ : SqMatrix)
          ((0 : Nat) : Int) ((2 : Nat) : Int) = some A ∧
        A.is_zero = (⟨false, [[1, 2, 3], [4, 5, 6], [7, 8, 9]]⟩ : SqMatrix).is_zero ∧
        A.data.length = 3 ∧ (∀ row ∈ A.data, row.length = 3) ∧
        ∀ a b : Nat, a < 3 → b < 3 →
          mget A.data a b
            = mget (⟨false, [[1, 2, 3], [4, 5, 6], [7, 8, 9]]⟩ : SqMatrix).data
                (perm.getD a 0) (perm.getD b 0) :=
  ⟨by decide, by decide, by decide, by decide,
    movesquarematrixcolnrow_spec ⟨false, [[1, 2, 3], [4, 5, 6], [7, 8, 9]]⟩ 3 0 2
      (by decide) (by decide) (by decide) (by decide)⟩

/-- A concrete well-formed core (`dim x = 2`, `dim w = 2`, `dim y = 2`,
`dim cy = 1`, `N = 7`) with a dense structure matrix, used by witnesses. -/
def Cw : Core where
  x := [1, 2]
  dxH := some [3, 4]
  w := [5, 6]
  z := [7, 8]
  u := [9, 10]
  y := [11, 12]
  cu := [13]
  cy := [14]
  M := ⟨false,
    [[10, 11, 12, 13, 14, 15, 16],
     [20, 21, 22, 23, 24, 25, 26],
     [30, 31, 32, 33, 34, 35, 36],
     [40, 41, 42, 43, 44, 45, 46],
     [50, 51, 52, 53, 54, 55, 56],
     [60, 61, 62, 63, 64, 65, 66],
     [70, 71, 72, 73, 74, 75, 76]]⟩
  Zl := ⟨false, [[100, 101], [102, 103]]⟩

/-- The same concrete core with the structure matrix marked structurally
zero. -/
def CwZ : Core := { Cw with M := ⟨true,
    [[0, 0, 0, 0, 0, 0, 0],
     [0, 0, 0, 0, 0, 0, 0],
     [0, 0, 0, 0, 0, 0, 0],
     [0, 0, 0, 0, 0, 0, 0],
     [0, 0, 0, 0, 0, 0, 0],
     [0, 0, 0, 0, 0, 0, 0],
     [0, 0, 0, 0, 0, 0, 0]]⟩ }

/-- The same concrete core with the side matrix `Zl` marked structurally
zero. -/
def CwZl : Core := { Cw with Zl := ⟨true, [[0, 0], [0, 0]]⟩ }

/-- C8: if the structure matrix is marked structurally zero, every move
leaves it untouched: whatever the indices and whether the move succeeds
or raises, the resulting state holds the very same zero-marked matrix
(the `is_zero` test short-circuits before any index computation). -/
theorem moves_zero_M_fast_path (c : Core) (h : c.M.is_zero = true) (i j : Int) :
    (stateOf (move_stor c i j)).M = c.M ∧
    (stateOf (move_diss c i j)).M = c.M ∧
    (stateOf (move_port c i j)).M = c.M ∧
    (stateOf (move_connector c i j)).M = c.M := by
  refine ⟨?_, ?_, ?_, ?_⟩
  · unfold move_stor moveCoreMcolnrow
    cases hE : myrange c.dimx i j
    · simp [stateOf]
    · simp [stateOf, h]
  · unfold move_diss moveCoreMcolnrow
    cases hE : myrange c.dimw i j
    · simp [stateOf]
    · simp only [h, if_true]
      cases hzl : c.Zl.is_zero
      · simp only [hzl, Bool.false_eq_true, if_false]
        cases hA : movesquarematrixcolnrow c.Zl i j
        · simp [stateOf]
        · simp [stateOf]
      · simp [stateOf, hzl]
  · unfold move_port moveCoreMcolnrow
    cases hE : myrange c.dimy i j
    · simp [stateOf]
    · simp [stateOf, h]
  · unfold move_connector moveCoreMcolnrow
    cases hE : myrange c.dimcy i j
    · simp [stateOf]
    · simp [stateOf, h]

/-- Witness for C8 on the concrete zero-`M` core, with an out-of-range
index pair to boot. -/
theorem moves_zero_M_fast_path_witness :
    CwZ.M.is_zero = true ∧
      ((stateOf (move_stor CwZ 0 1)).M = CwZ.M ∧
       (stateOf (move_diss CwZ 0 1)).M = CwZ.M ∧
       (stateOf (move_port CwZ 0 1)).M = CwZ.M ∧
       (stateOf (move_connector CwZ 0 1)).M = CwZ.M) :=
  ⟨by decide, moves_zero_M_fast_path CwZ (by decide) 0 1⟩

/-- C10: the call `myrange(n, i, i)` returns the identity permutation and raises
no error even when `i` lies outside `[0, n)` (neither branch of the
comparison fires), and consequently every category move with `i = j`
succeeds as a no-op on a well-formed core, out-of-range index included. -/
theorem move_same_index_noop :
    (∀ (n : Nat) (i : Int), myrange n i i = some (List.range n)) ∧
    ∀ c : Core, c.wf → ∀ i : Int,
      move_stor c i i = .ok c ∧ move_diss c i i = .ok c ∧
      move_port c i i = .ok c ∧ move_connector c i i = .ok c := by
  constructor
  · intro n i
    exact myrange_same n i
  · intro c hwf i
    obtain ⟨hdxH, hzw, huy, hcucy, hM, hMr, hZl, hZlr⟩ := hwf
    have hx : permuteVec c.x (List.range c.dimx) = c.x := permuteVec_range c.x
    have hw : permuteVec c.w (List.range c.dimw) = c.w := permuteVec_range c.w
    have hy2 : permuteVec c.y (List.range c.dimy) = c.y := permuteVec_range c.y
    have hcy2 : permuteVec c.cy (List.range c.dimcy) = c.cy := permuteVec_range c.cy
    have hz2 : permuteVec c.z (List.range c.dimw) = c.z := by
      have h2 := permuteVec_range c.z
      rw [hzw] at h2
      exact h2
    have hu2 : permuteVec c.u (List.range c.dimy) = c.u := by
      have h2 := permuteVec_range c.u
      rw [huy] at h2
      exact h2
    have hcu2 : permuteVec c.cu (List.range c.dimcy) = c.cu := by
      have h2 := permuteVec_range c.cu
      rw [hcucy] at h2
      exact h2
    have hdxH2 : c.dxH.map (fun d => permuteVec d (List.range c.dimx)) = c.dxH := by
      cases hdx : c.dxH with
      | none => rfl
      | some d =>
        have hd : d.length = c.x.length := hdxH d (by rw [hdx]; simp)
        have h2 := permuteVec_range d
        rw [hd] at h2
        simp only [Option.map_some']
        exact congrArg some h2
    have hmove : ∀ (k : Int) (d : Core), d.M = c.M → moveCoreMcolnrow d k k = .ok d := by
      intro k d hdM
      unfold moveCoreMcolnrow
      by_cases hz : d.M.is_zero
      · simp [hz]
      · simp only [Bool.not_eq_true] at hz
        simp only [hz, Bool.false_eq_true, if_false]
        have hms : movesquarematrixcolnrow d.M k k
            = some ⟨d.M.is_zero, permMat d.M.data (List.range d.M.data.length)⟩ := by
          simp only [movesquarematrixcolnrow]
          rw [myrange_same]
          rfl
        have hperm : permMat d.M.data (List.range d.M.data.length) = d.M.data := by
          rw [hdM, hM]
          exact permMat_range c.M.data c.N hM hMr
        rw [hms, hperm]
    refine ⟨?_, ?_, ?_, ?_⟩
    · simp only [move_stor, myrange_same]
      rw [hx, hdxH2]
      exact hmove i _ rfl
    · simp only [move_diss, myrange_same]
      rw [hw, hz2]
      have hR : ({ c with w := c.w, z := c.z } : Core) = c := rfl
      rw [hR, hmove ((c.dimx : Int) + i) c rfl]
      by_cases hzl : c.Zl.is_zero
      · simp [hzl]
      · simp only [Bool.not_eq_true] at hzl
        simp only [hzl, Bool.false_eq_true, if_false]
        have hms : movesquarematrixcolnrow c.Zl i i
            = some ⟨c.Zl.is_zero, permMat c.Zl.data (List.range c.Zl.data.length)⟩ := by
          simp only [movesquarematrixcolnrow]
          rw [myrange_same]
          rfl
        have hperm : permMat c.Zl.data (List.range c.Zl.data.length) = c.Zl.data := by
          rw [hZl]
          exact permMat_range c.Zl.data c.dimw hZl hZlr
        rw [hms, hperm]
    · simp only [move_port, myrange_same]
      rw [hu2, hy2]
      have hR : ({ c with u := c.u, y := c.y } : Core) = c := rfl
      rw [hR, hmove ((c.dimx : Int) + (c.dimw : Int) + i) c rfl]
    · simp only [move_connector, myrange_same]
      rw [hcu2, hcy2]
      have hR : ({ c with cu := c.cu, cy := c.cy } : Core) = c := rfl
      rw [hR, hmove ((c.dimx : Int) + (c.dimw : Int) + (c.dimy : Int) + i) c rfl]

/-- Witness for C10: on the concrete core, `i = 9` is far outside every
category range, yet `move(9, 9)` succeeds and changes nothing. -/
theorem move_same_index_noop_witness :
    myrange 2 9 9 = some (List.range 2) ∧ Cw.wf ∧
      (move_stor Cw 9 9 = .ok Cw ∧ move_diss Cw 9 9 = .ok Cw ∧
       move_port Cw 9 9 = .ok Cw ∧ move_connector Cw 9 9 = .ok Cw) :=
  ⟨move_same_index_noop.1 2 9, by decide, move_same_index_noop.2 Cw (by decide) 9⟩

/-- C4 counterexample: on the concrete core with `dim(port) = 2`,
`move_port(core, 0, 5)` has `j = 5` far outside `[0, 2)`, yet no error is
signaled (Python slices clamp) and the core is mutated: the claim that an
out-of-range `i` or `j` is always rejected before any mutation is false. -/
theorem move_port_out_of_range_counterexample :
    isOkE (move_port Cw 0 5) = true ∧ stateOf (move_port Cw 0 5) ≠ Cw := by
  decide

/-- C4 (amended): an out-of-range error is raised, before any mutation
and leaving the core unchanged, exactly when the source index `i` is
outside `[-dim, dim)` (Python's `lis[indi]`) and `i ≠ j`; an out-of-range
target `j` alone is clamped silently.  The error state carries the
untouched core. -/
theorem moves_out_of_range (c : Core) (i j : Int) (hij : i ≠ j) :
    (((c.dimx : Int) ≤ i ∨ i < -(c.dimx : Int)) → move_stor c i j = .error c) ∧
    (((c.dimw : Int) ≤ i ∨ i < -(c.dimw : Int)) → move_diss c i j = .error c) ∧
    (((c.dimy : Int) ≤ i ∨ i < -(c.dimy : Int)) → move_port c i j = .error c) ∧
    (((c.dimcy : Int) ≤ i ∨ i < -(c.dimcy : Int)) → move_connector c i j = .error c) := by
  refine ⟨?_, ?_, ?_, ?_⟩
  · intro h
    unfold move_stor
    rw [myrange_none c.dimx i j h hij]
  · intro h
    unfold move_diss
    rw [myrange_none c.dimw i j h hij]
  · intro h
    unfold move_port
    rw [myrange_none c.dimy i j h hij]
  · intro h
    unfold move_connector
    rw [myrange_none c.dimcy i j h hij]

/-- Witness for the amended C4: `move_port(core, 5, 0)` with
`dim(port) = 2` raises out-of-range and leaves the core unchanged. -/
theorem moves_out_of_range_witness :
    (5 : Int) ≠ 0 ∧ ((Cw.dimy : Int) ≤ 5 ∨ (5 : Int) < -(Cw.dimy : Int)) ∧
      move_port Cw 5 0 = .error Cw :=
  ⟨by decide, by decide, (moves_out_of_range Cw 5 0 (by decide)).2.2.1 (by decide)⟩

/-- The core produced by a successful `move_stor(core, i, j)`. -/
def storMoved (c : Core) (i j : Nat) : Core :=
  { c with
    x := permuteVec c.x (movePermList c.dimx i j),
    dxH := c.dxH.map fun d => permuteVec d (movePermList c.dimx i j),
    M := if c.M.is_zero then c.M
      else ⟨c.M.is_zero, permMat c.M.data (movePermList c.N i j)⟩ }

lemma move_stor_eq_moved (c : Core) (i j : Nat) (hi : i < c.dimx) (hj : j < c.dimx)
    (hM : c.M.data.length = c.N) :
    move_stor c (i : Int) (j : Int) = .ok (storMoved c i j) :=
  move_stor_eq c i j hi hj hM

lemma storMoved_dimx (c : Core) (i j : Nat) : (storMoved c i j).dimx = c.dimx := by
  simp [storMoved, Core.dimx, permuteVec_length, movePermList_length]

lemma storMoved_N (c : Core) (i j : Nat) : (storMoved c i j).N = c.N := by
  simp [storMoved, Core.N, Core.dimx, Core.dimw, Core.dimy, Core.dimcy,
    permuteVec_length, movePermList_length]

lemma storMoved_M_len (c : Core) (i j : Nat) (hMl : c.M.data.length = c.N) :
    (storMoved c i j).M.data.length = (storMoved c i j).N := by
  rw [storMoved_N]
  by_cases hz : c.M.is_zero = true
  · simp [storMoved, hz, hMl]
  · simp only [Bool.not_eq_true] at hz
    simp [storMoved, hz, permMat_length, movePermList_length]

lemma storMoved_roundtrip (c : Core) (i j : Nat)
    (hdxH : ∀ d ∈ c.dxH.toList, d.length = c.x.length)
    (hMl : c.M.data.length = c.N) (hMr : ∀ row ∈ c.M.data, row.length = c.N)
    (hi : i < c.dimx) (hj : j < c.dimx) :
    storMoved (storMoved c i j) j i = c := by
  obtain ⟨cx, cdxH, cw, cz, cu, cy0, ccu, ccy0, cM, cZl⟩ := c
  simp only [Core.dimx, Core.N, Core.dimw, Core.dimy, Core.dimcy] at hdxH hMl hMr hi hj
  simp only [storMoved, Core.dimx, Core.N, Core.dimw, Core.dimy, Core.dimcy,
    permuteVec_length, movePermList_length]
  rw [Core.mk.injEq]
  refine ⟨?_, ?_, rfl, rfl, rfl, rfl, rfl, rfl, ?_, rfl⟩
  · exact permuteVec_roundtrip cx cx.length i j rfl hi hj
  · cases hdx : cdxH with
    | none => rfl
    | some d =>
      have hd : d.length = cx.length := by
        apply hdxH
        rw [hdx]
        simp
      simp only [Option.map_some']
      exact congrArg some (permuteVec_roundtrip d cx.length i j hd hi hj)
  · by_cases hz : cM.is_zero = true
    · simp [hz]
    · simp only [Bool.not_eq_true] at hz
      simp only [hz, Bool.false_eq_true, if_false]
      rw [permMat_roundtrip cM.data (cx.length + cw.length + cy0.length + ccy0.length)
        i j hMl hMr (by omega) (by omega), ← hz]

/-- The core produced by a successful `move_port(core, i, j)`. -/
def portMoved (c : Core) (i j : Nat) : Core :=
  { c with
    u := permuteVec c.u (movePermList c.dimy i j),
    y := permuteVec c.y (movePermList c.dimy i j),
    M := if c.M.is_zero then c.M
      else ⟨c.M.is_zero, permMat c.M.data
        (movePermList c.N (c.dimx + c.dimw + i) (c.dimx + c.dimw + j))⟩ }

lemma move_port_eq_moved (c : Core) (i j : Nat) (hi : i < c.dimy) (hj : j < c.dimy)
    (hM : c.M.data.length = c.N) :
    move_port c (i : Int) (j : Int) = .ok (portMoved c i j) :=
  move_port_eq c i j hi hj hM

lemma portMoved_dimy (c : Core) (i j : Nat) : (portMoved c i j).dimy = c.dimy := by
  simp [portMoved, Core.dimy, permuteVec_length, movePermList_length]

lemma portMoved_N (c : Core) (i j : Nat) : (portMoved c i j).N = c.N := by
  simp [portMoved, Core.N, Core.dimx, Core.dimw, Core.dimy, Core.dimcy,
    permuteVec_length, movePermList_length]

lemma portMoved_M_len (c : Core) (i j : Nat) (hMl : c.M.data.length = c.N) :
    (portMoved c i j).M.data.length = (portMoved c i j).N := by
  rw [portMoved_N]
  by_cases hz : c.M.is_zero = true
  · simp [portMoved, hz, hMl]
  · simp only [Bool.not_eq_true] at hz
    simp [portMoved, hz, permMat_length, movePermList_length]

lemma portMoved_roundtrip (c : Core) (i j : Nat)
    (huy : c.u.length = c.y.length)
    (hMl : c.M.data.length = c.N) (hMr : ∀ row ∈ c.M.data, row.length = c.N)
    (hi : i < c.dimy) (hj : j < c.dimy) :
    portMoved (portMoved c i j) j i = c := by
  obtain ⟨cx, cdxH, cw, cz, cu, cy0, ccu, ccy0, cM, cZl⟩ := c
  simp only [Core.dimx, Core.N, Core.dimw, Core.dimy, Core.dimcy] at huy hMl hMr hi hj
  simp only [portMoved, Core.dimx, Core.N, Core.dimw, Core.dimy, Core.dimcy,
    permuteVec_length, movePermList_length]
  rw [Core.mk.injEq]
  refine ⟨rfl, rfl, rfl, rfl, ?_, ?_, rfl, rfl, ?_, rfl⟩
  · exact permuteVec_roundtrip cu cy0.length i j huy hi hj
  · exact permuteVec_roundtrip cy0 cy0.length i j rfl hi hj
  · by_cases hz : cM.is_zero = true
    · simp [hz]
    · simp only [Bool.not_eq_true] at hz
      simp only [hz, Bool.false_eq_true, if_false]
      rw [permMat_roundtrip cM.data (cx.length + cw.length + cy0.length + ccy0.length)
        (cx.length + cw.length + i) (cx.length + cw.length + j) hMl hMr
        (by omega) (by omega), ← hz]

/-- The core produced by a successful `move_connector(core, i, j)`. -/
def connectorMoved (c : Core) (i j : Nat) : Core :=
  { c with
    cu := permuteVec c.cu (movePermList c.dimcy i j),
    cy := permuteVec c.cy (movePermList c.dimcy i j),
    M := if c.M.is_zero then c.M
      else ⟨c.M.is_zero, permMat c.M.data
        (movePermList c.N (c.dimx + c.dimw + c.dimy + i)
          (c.dimx + c.dimw + c.dimy + j))⟩ }

lemma move_connector_eq_moved (c : Core) (i j : Nat) (hi : i < c.dimcy)
    (hj : j < c.dimcy) (hM : c.M.data.length = c.N) :
    move_connector c (i : Int) (j : Int) = .ok (connectorMoved c i j) :=
  move_connector_eq c i j hi hj hM

lemma connectorMoved_dimcy (c : Core) (i j : Nat) :
    (connectorMoved c i j).dimcy = c.dimcy := by
  simp [connectorMoved, Core.dimcy, permuteVec_length, movePermList_length]

lemma connectorMoved_N (c : Core) (i j : Nat) : (connectorMoved c i j).N = c.N := by
  simp [connectorMoved, Core.N, Core.dimx, Core.dimw, Core.dimy, Core.dimcy,
    permuteVec_length, movePermList_length]

lemma connectorMoved_M_len (c : Core) (i j : Nat) (hMl : c.M.data.length = c.N) :
    (connectorMoved c i j).M.data.length = (connectorMoved c i j).N := by
  rw [connectorMoved_N]
  by_cases hz : c.M.is_zero = true
  · simp [connectorMoved, hz, hMl]
  · simp only [Bool.not_eq_true] at hz
    simp [connectorMoved, hz, permMat_length, movePermList_length]

lemma connectorMoved_roundtrip (c : Core) (i j : Nat)
    (hcucy : c.cu.length = c.cy.length)
    (hMl : c.M.data.length = c.N) (hMr : ∀ row ∈ c.M.data, row.length = c.N)
    (hi : i < c.dimcy) (hj : j < c.dimcy) :
    connectorMoved (connectorMoved c i j) j i = c := by
  obtain ⟨cx, cdxH, cw, cz, cu, cy0, ccu, ccy0, cM, cZl⟩ := c
  simp only [Core.dimx, Core.N, Core.dimw, Core.dimy, Core.dimcy] at hcucy hMl hMr hi hj
  simp only [connectorMoved, Core.dimx, Core.N, Core.dimw, Core.dimy, Core.dimcy,
    permuteVec_length, movePermList_length]
  rw [Core.mk.injEq]
  refine ⟨rfl, rfl, rfl, rfl, rfl, rfl, ?_, ?_, ?_, rfl⟩
  · exact permuteVec_roundtrip ccu ccy0.length i j hcucy hi hj
  · exact permuteVec_roundtrip ccy0 ccy0.length i j rfl hi hj
  · by_cases hz : cM.is_zero = true
    · simp [hz]
    · simp only [Bool.not_eq_true] at hz
      simp only [hz, Bool.false_eq_true, if_false]
      rw [permMat_roundtrip cM.data (cx.length + cw.length + cy0.length + ccy0.length)
        (cx.length + cw.length + cy0.length + i) (cx.length + cw.length + cy0.length + j)
        hMl hMr (by omega) (by omega), ← hz]

/-- The core produced by a successful `move_diss(core, i, j)`. -/
def dissMoved (c : Core) (i j : Nat) : Core :=
  { c with
    w := permuteVec c.w (movePermList c.dimw i j),
    z := permuteVec c.z (movePermList c.dimw i j),
    M := if c.M.is_zero then c.M
      else ⟨c.M.is_zero, permMat c.M.data
        (movePermList c.N (c.dimx + i) (c.dimx + j))⟩,
    Zl := if c.Zl.is_zero then c.Zl
      else ⟨c.Zl.is_zero, permMat c.Zl.data (movePermList c.dimw i j)⟩ }

lemma move_diss_eq_moved (c : Core) (i j : Nat) (hi : i < c.dimw) (hj : j < c.dimw)
    (hM : c.M.data.length = c.N) (hZl : c.Zl.data.length = c.dimw) :
    move_diss c (i : Int) (j : Int) = .ok (dissMoved c i j) :=
  move_diss_eq c i j hi hj hM hZl

lemma dissMoved_dimw (c : Core) (i j : Nat) : (dissMoved c i j).dimw = c.dimw := by
  simp [dissMoved, Core.dimw, permuteVec_length, movePermList_length]

lemma dissMoved_N (c : Core) (i j : Nat) : (dissMoved c i j).N = c.N := by
  simp [dissMoved, Core.N, Core.dimx, Core.dimw, Core.dimy, Core.dimcy,
    permuteVec_length, movePermList_length]

lemma dissMoved_M_len (c : Core) (i j : Nat) (hMl : c.M.data.length = c.N) :
    (dissMoved c i j).M.data.length = (dissMoved c i j).N := by
  rw [dissMoved_N]
  by_cases hz : c.M.is_zero = true
  · simp [dissMoved, hz, hMl]
  · simp only [Bool.not_eq_true] at hz
    simp [dissMoved, hz, permMat_length, movePermList_length]

lemma dissMoved_Zl_len (c : Core) (i j : Nat) (hZl : c.Zl.data.length = c.dimw) :
    (dissMoved c i j).Zl.data.length = (dissMoved c i j).dimw := by
  rw [dissMoved_dimw]
  by_cases hz : c.Zl.is_zero = true
  · simp [dissMoved, hz, hZl]
  · simp only [Bool.not_eq_true] at hz
    simp [dissMoved, hz, permMat_length, movePermList_length]

lemma dissMoved_roundtrip (c : Core) (i j : Nat)
    (hzw : c.z.length = c.w.length)
    (hMl : c.M.data.length = c.N) (hMr : ∀ row ∈ c.M.data, row.length = c.N)
    (hZl : c.Zl.data.length = c.dimw) (hZlr : ∀ row ∈ c.Zl.data, row.length = c.dimw)
    (hi : i < c.dimw) (hj : j < c.dimw) :
    dissMoved (dissMoved c i j) j i = c := by
  obtain ⟨cx, cdxH, cw, cz, cu, cy0, ccu, ccy0, cM, cZl⟩ := c
  simp only [Core.dimx, Core.N, Core.dimw, Core.dimy, Core.dimcy]
    at hzw hMl hMr hZl hZlr hi hj
  simp only [dissMoved, Core.dimx, Core.N, Core.dimw, Core.dimy, Core.dimcy,
    permuteVec_length, movePermList_length]
  rw [Core.mk.injEq]
  refine ⟨rfl, rfl, ?_, ?_, rfl, rfl, rfl, rfl, ?_, ?_⟩
  · exact permuteVec_roundtrip cw cw.length i j rfl hi hj
  · exact permuteVec_roundtrip cz cw.length i j hzw hi hj
  · by_cases hz : cM.is_zero = true
    · simp [hz]
    · simp only [Bool.not_eq_true] at hz
      simp only [hz, Bool.false_eq_true, if_false]
      rw [permMat_roundtrip cM.data (cx.length + cw.length + cy0.length + ccy0.length)
        (cx.length + i) (cx.length + j) hMl hMr (by omega) (by omega), ← hz]
  · by_cases hz : cZl.is_zero = true
    · simp [hz]
    · simp only [Bool.not_eq_true] at hz
      simp only [hz, Bool.false_eq_true, if_false]
      rw [permMat_roundtrip cZl.data cw.length i j hZl hZlr hi hj, ← hz]

/-- C5: on a well-formed core, for every category and all valid indices
`i ≠ j`, `move(i, j)` succeeds and `move(j, i)` applied to the result
returns exactly the original core — every vector of the category, the
structure matrix `M` (and `Zl` for dissipation), and everything else. -/
theorem moves_roundtrip (c : Core) (hwf : c.wf) :
    (∀ i j : Nat, i < c.dimx → j < c.dimx → i ≠ j →
      isOkE (move_stor c (i : Int) (j : Int)) = true ∧
      move_stor (stateOf (move_stor c (i : Int) (j : Int))) (j : Int) (i : Int)
        = .ok c) ∧
    (∀ i j : Nat, i < c.dimw → j < c.dimw → i ≠ j →
      isOkE (move_diss c (i : Int) (j : Int)) = true ∧
      move_diss (stateOf (move_diss c (i : Int) (j : Int))) (j : Int) (i : Int)
        = .ok c) ∧
    (∀ i j : Nat, i < c.dimy → j < c.dimy → i ≠ j →
      isOkE (move_port c (i : Int) (j : Int)) = true ∧
      move_port (stateOf (move_port c (i : Int) (j : Int))) (j : Int) (i : Int)
        = .ok c) ∧
    (∀ i j : Nat, i < c.dimcy → j < c.dimcy → i ≠ j →
      isOkE (move_connector c (i : Int) (j : Int)) = true ∧
      move_connector (stateOf (move_connector c (i : Int) (j : Int))) (j : Int) (i : Int)
        = .ok c) := by
  obtain ⟨hdxH, hzw, huy, hcucy, hMl, hMr, hZl, hZlr⟩ := hwf
  refine ⟨?_, ?_, ?_, ?_⟩
  · intro i j hi hj hij
    rw [move_stor_eq_moved c i j hi hj hMl]
    refine ⟨rfl, ?_⟩
    simp only [stateOf]
    rw [move_stor_eq_moved (storMoved c i j) j i (by rw [storMoved_dimx]; exact hj)
      (by rw [storMoved_dimx]; exact hi) (storMoved_M_len c i j hMl)]
    rw [storMoved_roundtrip c i j hdxH hMl hMr hi hj]
  · intro i j hi hj hij
    rw [move_diss_eq_moved c i j hi hj hMl hZl]
    refine ⟨rfl, ?_⟩
    simp only [stateOf]
    rw [move_diss_eq_moved (dissMoved c i j) j i (by rw [dissMoved_dimw]; exact hj)
      (by rw [dissMoved_dimw]; exact hi) (dissMoved_M_len c i j hMl)
      (dissMoved_Zl_len c i j hZl)]
    rw [dissMoved_roundtrip c i j hzw hMl hMr hZl hZlr hi hj]
  · intro i j hi hj hij
    rw [move_port_eq_moved c i j hi hj hMl]
    refine ⟨rfl, ?_⟩
    simp only [stateOf]
    rw [move_port_eq_moved (portMoved c i j) j i (by rw [portMoved_dimy]; exact hj)
      (by rw [portMoved_dimy]; exact hi) (portMoved_M_len c i j hMl)]
    rw [portMoved_roundtrip c i j huy hMl hMr hi hj]
  · intro i j hi hj hij
    rw [move_connector_eq_moved c i j hi hj hMl]
    refine ⟨rfl, ?_⟩
    simp only [stateOf]
    rw [move_connector_eq_moved (connectorMoved c i j) j i
      (by rw [connectorMoved_dimcy]; exact hj)
      (by rw [connectorMoved_dimcy]; exact hi) (connectorMoved_M_len c i j hMl)]
    rw [connectorMoved_roundtrip c i j hcucy hMl hMr hi hj]

/-- Witness for C5 on the concrete core, `i = 0`, `j = 1`, for the three
categories of dimension 2 (storage, dissipation, port). -/
theorem moves_roundtrip_witness :
    Cw.wf ∧ 0 < Cw.dimx ∧ 1 < Cw.dimx ∧ (0 : Nat) ≠ 1 ∧
      (isOkE (move_stor Cw ((0 : Nat) : Int) ((1 : Nat) : Int)) = true ∧
        move_stor (stateOf (move_stor Cw ((0 : Nat) : Int) ((1 : Nat) : Int)))
          ((1 : Nat) : Int) ((0 : Nat) : Int) = .ok Cw) ∧
      (isOkE (move_diss Cw ((0 : Nat) : Int) ((1 : Nat) : Int)) = true ∧
        move_diss (stateOf (move_diss Cw ((0 : Nat) : Int) ((1 : Nat) : Int)))
          ((1 : Nat) : Int) ((0 : Nat) : Int) = .ok Cw) ∧
      (isOkE (move_port Cw ((0 : Nat) : Int) ((1 : Nat) : Int)) = true ∧
        move_port (stateOf (move_port Cw ((0 : Nat) : Int) ((1 : Nat) : Int)))
          ((1 : Nat) : Int) ((0 : Nat) : Int) = .ok Cw) :=
  ⟨by decide, by decide, by decide, by decide,
    (moves_roundtrip Cw (by decide)).1 0 1 (by decide) (by decide) (by decide),
    (moves_roundtrip Cw (by decide)).2.1 0 1 (by decide) (by decide) (by decide),
    (moves_roundtrip Cw (by decide)).2.2.1 0 1 (by decide) (by decide) (by decide)⟩

/-- C6: a valid move on one category leaves every entry of `M` whose row
and column both lie outside that category's block offset window, and
every vector of every other category, unchanged.  Windows: storage
`[0, dimx)`, dissipation `[dimx, dimx+dimw)`, port
`[dimx+dimw, dimx+dimw+dimy)`, connector `[dimx+dimw+dimy, N)`. -/
theorem moves_frame (c : Core) (hwf : c.wf) :
    (∀ i j : Nat, i < c.dimx → j < c.dimx →
      isOkE (move_stor c (i : Int) (j : Int)) = true ∧
      (stateOf (move_stor c (i : Int) (j : Int))).w = c.w ∧
      (stateOf (move_stor c (i : Int) (j : Int))).z = c.z ∧
      (stateOf (move_stor c (i : Int) (j : Int))).u = c.u ∧
      (stateOf (move_stor c (i : Int) (j : Int))).y = c.y ∧
      (stateOf (move_stor c (i : Int) (j : Int))).cu = c.cu ∧
      (stateOf (move_stor c (i : Int) (j : Int))).cy = c.cy ∧
      ∀ a b : Nat, c.dimx ≤ a → c.dimx ≤ b →
        mget (stateOf (move_stor c (i : Int) (j : Int))).M.data a b
          = mget c.M.data a b) ∧
    (∀ i j : Nat, i < c.dimw → j < c.dimw →
      isOkE (move_diss c (i : Int) (j : Int)) = true ∧
      (stateOf (move_diss c (i : Int) (j : Int))).x = c.x ∧
      (stateOf (move_diss c (i : Int) (j : Int))).dxH = c.dxH ∧
      (stateOf (move_diss c (i : Int) (j : Int))).u = c.u ∧
      (stateOf (move_diss c (i : Int) (j : Int))).y = c.y ∧
      (stateOf (move_diss c (i : Int) (j : Int))).cu = c.cu ∧
      (stateOf (move_diss c (i : Int) (j : Int))).cy = c.cy ∧
      ∀ a b : Nat, (a < c.dimx ∨ c.dimx + c.dimw ≤ a) →
        (b < c.dimx ∨ c.dimx + c.dimw ≤ b) →
        mget (stateOf (move_diss c (i : Int) (j : Int))).M.data a b
          = mget c.M.data a b) ∧
    (∀ i j : Nat, i < c.dimy → j < c.dimy →
      isOkE (move_port c (i : Int) (j : Int)) = true ∧
      (stateOf (move_port c (i : Int) (j : Int))).x = c.x ∧
      (stateOf (move_port c (i : Int) (j : Int))).dxH = c.dxH ∧
      (stateOf (move_port c (i : Int) (j : Int))).w = c.w ∧
      (stateOf (move_port c (i : Int) (j : Int))).z = c.z ∧
      (stateOf (move_port c (i : Int) (j : Int))).cu = c.cu ∧
      (stateOf (move_port c (i : Int) (j : Int))).cy = c.cy ∧
      ∀ a b : Nat, (a < c.dimx + c.dimw ∨ c.dimx + c.dimw + c.dimy ≤ a) →
        (b < c.dimx + c.dimw ∨ c.dimx + c.dimw + c.dimy ≤ b) →
        mget (stateOf (move_port c (i : Int) (j : Int))).M.data a b
          = mget c.M.data a b) ∧
    (∀ i j : Nat, i < c.dimcy → j < c.dimcy →
      isOkE (move_connector c (i : Int) (j : Int)) = true ∧
      (stateOf (move_connector c (i : Int) (j : Int))).x = c.x ∧
      (stateOf (move_connector c (i : Int) (j : Int))).dxH = c.dxH ∧
      (stateOf (move_connector c (i : Int) (j : Int))).w = c.w ∧
      (stateOf (move_connector c (i : Int) (j : Int))).z = c.z ∧
      (stateOf (move_connector c (i : Int) (j : Int))).u = c.u ∧
      (stateOf (move_connector c (i : Int) (j : Int))).y = c.y ∧
      ∀ a b : Nat, (a < c.dimx + c.dimw + c.dimy ∨ c.N ≤ a) →
        (b < c.dimx + c.dimw + c.dimy ∨ c.N ≤ b) →
        mget (stateOf (move_connector c (i : Int) (j : Int))).M.data a b
          = mget c.M.data a b) := by
  obtain ⟨hdxH, hzw, huy, hcucy, hMl, hMr, hZl, hZlr⟩ := hwf
  have hN : c.N = c.dimx + c.dimw + c.dimy + c.dimcy := rfl
  refine ⟨?_, ?_, ?_, ?_⟩
  · intro i j hi hj
    have hiN : i < c.N := by omega
    have hjN : j < c.N := by omega
    rw [move_stor_eq_moved c i j hi hj hMl]
    refine ⟨rfl, rfl, rfl, rfl, rfl, rfl, rfl, ?_⟩
    intro a b ha hb
    by_cases hz : c.M.is_zero = true
    · simp [stateOf, storMoved, hz]
    · simp only [Bool.not_eq_true] at hz
      have hmd : (stateOf (Except.ok (storMoved c i j))).M.data
          = permMat c.M.data (movePermList c.N i j) := by
        simp [stateOf, storMoved, hz]
      rw [hmd, mget_permMat_spec c.M.data c.N i j a b hMl hMr hiN hjN,
        movePermSpec_out i j a (Or.inr (by omega)),
        movePermSpec_out i j b (Or.inr (by omega))]
  · intro i j hi hj
    have hiN : c.dimx + i < c.N := by omega
    have hjN : c.dimx + j < c.N := by omega
    rw [move_diss_eq_moved c i j hi hj hMl hZl]
    refine ⟨rfl, rfl, rfl, rfl, rfl, rfl, rfl, ?_⟩
    intro a b ha hb
    by_cases hz : c.M.is_zero = true
    · simp [stateOf, dissMoved, hz]
    · simp only [Bool.not_eq_true] at hz
      have hmd : (stateOf (Except.ok (dissMoved c i j))).M.data
          = permMat c.M.data (movePermList c.N (c.dimx + i) (c.dimx + j)) := by
        simp [stateOf, dissMoved, hz]
      rw [hmd,
        mget_permMat_spec c.M.data c.N (c.dimx + i) (c.dimx + j) a b hMl hMr hiN hjN,
        movePermSpec_out _ _ a (by omega), movePermSpec_out _ _ b (by omega)]
  · intro i j hi hj
    have hiN : c.dimx + c.dimw + i < c.N := by omega
    have hjN : c.dimx + c.dimw + j < c.N := by omega
    rw [move_port_eq_moved c i j hi hj hMl]
    refine ⟨rfl, rfl, rfl, rfl, rfl, rfl, rfl, ?_⟩
    intro a b ha hb
    by_cases hz : c.M.is_zero = true
    · simp [stateOf, portMoved, hz]
    · simp only [Bool.not_eq_true] at hz
      have hmd : (stateOf (Except.ok (portMoved c i j))).M.data
          = permMat c.M.data (movePermList c.N (c.dimx + c.dimw + i)
              (c.dimx + c.dimw + j)) := by
        simp [stateOf, portMoved, hz]
      rw [hmd,
        mget_permMat_spec c.M.data c.N (c.dimx + c.dimw + i) (c.dimx + c.dimw + j)
          a b hMl hMr hiN hjN,
        movePermSpec_out _ _ a (by omega), movePermSpec_out _ _ b (by omega)]
  · intro i j hi hj
    have hiN : c.dimx + c.dimw + c.dimy + i < c.N := by omega
    have hjN : c.dimx + c.dimw + c.dimy + j < c.N := by omega
    rw [move_connector_eq_moved c i j hi hj hMl]
    refine ⟨rfl, rfl, rfl, rfl, rfl, rfl, rfl, ?_⟩
    intro a b ha hb
    by_cases hz : c.M.is_zero = true
    · simp [stateOf, connectorMoved, hz]
    · simp only [Bool.not_eq_true] at hz
      have hmd : (stateOf (Except.ok (connectorMoved c i j))).M.data
          = permMat c.M.data (movePermList c.N (c.dimx + c.dimw + c.dimy + i)
              (c.dimx + c.dimw + c.dimy + j)) := by
        simp [stateOf, connectorMoved, hz]
      rw [hmd,
        mget_permMat_spec c.M.data c.N (c.dimx + c.dimw + c.dimy + i)
          (c.dimx + c.dimw + c.dimy + j) a b hMl hMr hiN hjN,
        movePermSpec_out _ _ a (by omega), movePermSpec_out _ _ b (by omega)]

/-- Witness for C6: the dissipation-move instance on the concrete core
(`i = 0`, `j = 1`). -/
theorem moves_frame_witness :
    Cw.wf ∧ 0 < Cw.dimw ∧ 1 < Cw.dimw ∧
      (isOkE (move_diss Cw ((0 : Nat) : Int) ((1 : Nat) : Int)) = true ∧
       (stateOf (move_diss Cw ((0 : Nat) : Int) ((1 : Nat) : Int))).x = Cw.x ∧
       (stateOf (move_diss Cw ((0 : Nat) : Int) ((1 : Nat) : Int))).dxH = Cw.dxH ∧
       (stateOf (move_diss Cw ((0 : Nat) : Int) ((1 : Nat) : Int))).u = Cw.u ∧
       (stateOf (move_diss Cw ((0 : Nat) : Int) ((1 : Nat) : Int))).y = Cw.y ∧
       (stateOf (move_diss Cw ((0 : Nat) : Int) ((1 : Nat) : Int))).cu = Cw.cu ∧
       (stateOf (move_diss Cw ((0 : Nat) : Int) ((1 : Nat) : Int))).cy = Cw.cy ∧
       ∀ a b : Nat, (a < Cw.dimx ∨ Cw.dimx + Cw.dimw ≤ a) →
         (b < Cw.dimx ∨ Cw.dimx + Cw.dimw ≤ b) →
         mget (stateOf (move_diss Cw ((0 : Nat) : Int) ((1 : Nat) : Int))).M.data a b
           = mget Cw.M.data a b) :=
  ⟨by decide, by decide, by decide,
    (moves_frame Cw (by decide)).2.1 0 1 (by decide) (by decide)⟩

/-- C7: a valid dissipation move permutes `w` and `z` by the same
category-local permutation `myrange(dim w, i, j)` (tabulated as
`movePermList`), permutes `M` at the global indices shifted by the
storage dimension (`dimx + i`, `dimx + j`), and permutes `Zl` by the
unshifted category-local permutation in `Zl`'s own index space. -/
theorem move_diss_permutes (c : Core) (hwf : c.wf) (i j : Nat)
    (hi : i < c.dimw) (hj : j < c.dimw)
    (hM : c.M.is_zero = false) (hZ : c.Zl.is_zero = false) :
    isOkE (move_diss c (i : Int) (j : Int)) = true ∧
    (stateOf (move_diss c (i : Int) (j : Int))).w
      = permuteVec c.w (movePermList c.dimw i j) ∧
    (stateOf (move_diss c (i : Int) (j : Int))).z
      = permuteVec c.z (movePermList c.dimw i j) ∧
    (stateOf (move_diss c (i : Int) (j : Int))).M.data
      = permMat c.M.data (movePermList c.N (c.dimx + i) (c.dimx + j)) ∧
    (stateOf (move_diss c (i : Int) (j : Int))).Zl.data
      = permMat c.Zl.data (movePermList c.dimw i j) := by
  obtain ⟨hdxH, hzw, huy, hcucy, hMl, hMr, hZl, hZlr⟩ := hwf
  rw [move_diss_eq_moved c i j hi hj hMl hZl]
  refine ⟨rfl, rfl, rfl, ?_, ?_⟩
  · simp [stateOf, dissMoved, hM]
  · simp [stateOf, dissMoved, hZ]

/-- Witness for C7 on the concrete core (`i = 1`, `j = 0`). -/
theorem move_diss_permutes_witness :
    Cw.wf ∧ 1 < Cw.dimw ∧ 0 < Cw.dimw ∧
      Cw.M.is_zero = false ∧ Cw.Zl.is_zero = false ∧
      (isOkE (move_diss Cw ((1 : Nat) : Int) ((0 : Nat) : Int)) = true ∧
       (stateOf (move_diss Cw ((1 : Nat) : Int) ((0 : Nat) : Int))).w
         = permuteVec Cw.w (movePermList Cw.dimw 1 0) ∧
       (stateOf (move_diss Cw ((1 : Nat) : Int) ((0 : Nat) : Int))).z
         = permuteVec Cw.z (movePermList Cw.dimw 1 0) ∧
       (stateOf (move_diss Cw ((1 : Nat) : Int) ((0 : Nat) : Int))).M.data
         = permMat Cw.M.data (movePermList Cw.N (Cw.dimx + 1) (Cw.dimx + 0)) ∧
       (stateOf (move_diss Cw ((1 : Nat) : Int) ((0 : Nat) : Int))).Zl.data
         = permMat Cw.Zl.data (movePermList Cw.dimw 1 0)) :=
  ⟨by decide, by decide, by decide, by decide, by decide,
    move_diss_permutes Cw (by decide) 1 0 (by decide) (by decide) (by decide) (by decide)⟩

/-- C9: on a dissipation move with `Zl` marked structurally zero, the
`Zl` permutation is skipped entirely (`Zl` comes back unchanged), while
`w`, `z` and `M` are still permuted as usual — the zero fast path for
`Zl` analogous to the one for `M`. -/
theorem move_diss_zero_Zl_fast_path (c : Core) (hwf : c.wf) (i j : Nat)
    (hi : i < c.dimw) (hj : j < c.dimw) (hZ : c.Zl.is_zero = true) :
    isOkE (move_diss c (i : Int) (j : Int)) = true ∧
    (stateOf (move_diss c (i : Int) (j : Int))).Zl = c.Zl ∧
    (stateOf (move_diss c (i : Int) (j : Int))).w
      = permuteVec c.w (movePermList c.dimw i j) ∧
    (stateOf (move_diss c (i : Int) (j : Int))).z
      = permuteVec c.z (movePermList c.dimw i j) ∧
    (c.M.is_zero = true → (stateOf (move_diss c (i : Int) (j : Int))).M = c.M) ∧
    (c.M.is_zero = false → (stateOf (move_diss c (i : Int) (j : Int))).M.data
      = permMat c.M.data (movePermList c.N (c.dimx + i) (c.dimx + j))) := by
  obtain ⟨hdxH, hzw, huy, hcucy, hMl, hMr, hZl, hZlr⟩ := hwf
  rw [move_diss_eq_moved c i j hi hj hMl hZl]
  refine ⟨rfl, ?_, rfl, rfl, ?_, ?_⟩
  · simp [stateOf, dissMoved, hZ]
  · intro hm
    simp [stateOf, dissMoved, hm]
  · intro hm
    simp [stateOf, dissMoved, hm]

/-- Witness for C9 on the concrete core with `Zl` marked zero
(`i = 0`, `j = 1`); its `M` is dense, so the `M.is_zero = false` branch
is exercised. -/
theorem move_diss_zero_Zl_fast_path_witness :
    CwZl.wf ∧ 0 < CwZl.dimw ∧ 1 < CwZl.dimw ∧ CwZl.Zl.is_zero = true ∧
      (isOkE (move_diss CwZl ((0 : Nat) : Int) ((1 : Nat) : Int)) = true ∧
       (stateOf (move_diss CwZl ((0 : Nat) : Int) ((1 : Nat) : Int))).Zl = CwZl.Zl ∧
       (stateOf (move_diss CwZl ((0 : Nat) : Int) ((1 : Nat) : Int))).w
         = permuteVec CwZl.w (movePermList CwZl.dimw 0 1) ∧
       (stateOf (move_diss CwZl ((0 : Nat) : Int) ((1 : Nat) : Int))).z
         = permuteVec CwZl.z (movePermList CwZl.dimw 0 1) ∧
       (CwZl.M.is_zero = true →
         (stateOf (move_diss CwZl ((0 : Nat) : Int) ((1 : Nat) : Int))).M = CwZl.M) ∧
       (CwZl.M.is_zero = false →
         (stateOf (move_diss CwZl ((0 : Nat) : Int) ((1 : Nat) : Int))).M.data
           = permMat CwZl.M.data
               (movePermList CwZl.N (CwZl.dimx + 0) (CwZl.dimx + 1)))) :=
  ⟨by decide, by decide, by decide, by decide,
    move_diss_zero_Zl_fast_path CwZl (by decide) 0 1 (by decide) (by decide) (by decide)⟩

end PyPHS
